import Mathlib

/-!
Verification of the Flowstate 3D mock-up studio against its specification.

The development shallowly embeds the two pieces of logic the claims are
about:

* the undo/redo history container of `src/hooks/useHistoryState.ts`
  (`HistoryState`, `setState`, `undo`, `redo` and the derived views);
* the retry / polling / quality-gate orchestration of
  `src/services/geminiService.ts` (`withRetry`, `generateFlexibleVideo`,
  `checkVideoOperationStatus`) and `src/src/FlowstateUnified.tsx`
  (`checkVideoResolution`, `handleVeoOperation`).

JavaScript's `JSON.stringify`-based equality is modelled by an abstract
serialization function `ser : T → String`; two values are "serialization
equal" when `ser` maps them to the same string.  Asynchronous SDK calls are
modelled by an oracle `Nat → CallResult α` giving the outcome of the n-th
underlying invocation, so that control flow (which call is issued, when an
error propagates, which delays are slept) becomes a pure function of the
oracle.
-/

namespace Flowstate

/-- The internal state of `useHistoryState` (src/hooks/useHistoryState.ts,
lines 11-14): the combined object `{ history, index }` held in the React
state cell. -/
structure HistoryState (T : Type) where
  history : List T
  index : Nat
deriving Repr, DecidableEq

/-- Construction (src/hooks/useHistoryState.ts line 12): the record starts
as `{ history: [initialState], index: 0 }`. -/
def HistoryState.init {T : Type} (initialState : T) : HistoryState T :=
  ⟨[initialState], 0⟩

/-- The serialization-equality test of line 31,
`JSON.stringify(resolvedState) === JSON.stringify(currentHistory[currentIndex])`,
with the current entry looked up as an `Option` (it is `some` in every
reachable state, since `index < history.length` there). -/
def jsonEq {T : Type} (ser : T → String) (v : T) : Option T → Bool
  | some c => ser v = ser c
  | none => false

/-- The body of `setState` (src/hooks/useHistoryState.ts lines 22-44) for a
resolved new value: if the new value serializes equal to the current entry
the state is returned unchanged; otherwise the retained prefix is `[]` when
`overwriteHistory` is set and `history.slice(0, index + 1)` otherwise, the
value is appended, and the index is set to the last position. -/
def setState {T : Type} (ser : T → String) (s : HistoryState T) (resolvedState : T)
    (overwriteHistory : Bool) : HistoryState T :=
  if jsonEq ser resolvedState s.history[s.index]? then s
  else
    let historyToConsider := if overwriteHistory then ([] : List T) else s.history.take (s.index + 1)
    let newHistory := historyToConsider ++ [resolvedState]
    ⟨newHistory, newHistory.length - 1⟩

/-- `undo` (src/hooks/useHistoryState.ts lines 50-57): decrement the index
when it is positive, otherwise return the state unchanged. -/
def undo {T : Type} (s : HistoryState T) : HistoryState T :=
  if 0 < s.index then ⟨s.history, s.index - 1⟩ else s

/-- `redo` (src/hooks/useHistoryState.ts lines 63-70): increment the index
when it is strictly below `history.length - 1`, otherwise return the state
unchanged. -/
def redo {T : Type} (s : HistoryState T) : HistoryState T :=
  if s.index < s.history.length - 1 then ⟨s.history, s.index + 1⟩ else s

/-- The derived view `state: history[index]` (line 73), as an `Option`. -/
def current {T : Type} (s : HistoryState T) : Option T :=
  s.history[s.index]?

/-- The derived view `canUndo: index > 0` (line 77). -/
def canUndo {T : Type} (s : HistoryState T) : Bool :=
  0 < s.index

/-- The derived view `canRedo: index < history.length - 1` (line 78). -/
def canRedo {T : Type} (s : HistoryState T) : Bool :=
  s.index < s.history.length - 1

/-- One call into the hook's public interface: a commit (a `setState` call
with an already-resolved value and an overwrite flag), an `undo`, or a
`redo`. -/
inductive Op (T : Type) where
  | commit (v : T) (overwrite : Bool)
  | undo
  | redo
deriving Repr, DecidableEq

/-- Apply one operation to a history state. -/
def applyOp {T : Type} (ser : T → String) (s : HistoryState T) : Op T → HistoryState T
  | .commit v ow => setState ser s v ow
  | .undo => undo s
  | .redo => redo s

/-- Run a sequence of operations from a state. -/
def run {T : Type} (ser : T → String) (s : HistoryState T) : List (Op T) → HistoryState T
  | [] => s
  | op :: ops => run ser (applyOp ser s op) ops

/-- The conjoined state invariant of spec §3: `history` is non-empty, the
index points at an existing entry, and no two consecutive entries are
serialization equal. -/
def Invariant {T : Type} (ser : T → String) (s : HistoryState T) : Prop :=
  s.history ≠ [] ∧ s.index < s.history.length ∧
    List.Chain' (fun a b => ser a ≠ ser b) s.history

/-- Test singling out the operations that never discard the initial
entry: `undo`, `redo`, and commits with the overwrite flag clear. -/
def nonOverwrite {T : Type} : Op T → Bool
  | .commit _ ow => !ow
  | .undo => true
  | .redo => true

/-- Test singling out commit operations, used to phrase claims about
"sequences of commits". -/
def isCommit {T : Type} : Op T → Bool
  | .commit _ _ => true
  | .undo => false
  | .redo => false

/-- Serialization used for concrete witnesses: decimal printing of a natural
number, the image of `JSON.stringify` on a number-valued state. -/
def serNat (n : Nat) : String := toString n

/-! ## The generation service (src/services/geminiService.ts) and the video
orchestrator (src/src/FlowstateUnified.tsx)

An asynchronous API call either resolves with a value or rejects with an
error carrying a message; a whole run is driven by an oracle giving the
outcome of the n-th underlying SDK invocation. -/

/-- Outcome of one underlying SDK invocation: a resolved value or a thrown
error identified by its message text. -/
inductive CallResult (α : Type) where
  | ok (v : α)
  | err (msg : String)
deriving Repr, DecidableEq

/-- JavaScript's `String.prototype.includes`, on the character lists of the
two strings. -/
def strIncludes (s pat : String) : Bool :=
  (List.range (s.data.length + 1)).any (fun i => pat.data.isPrefixOf (s.data.drop i))

/-- JavaScript's `String.prototype.toLowerCase`, character by character. -/
def lowerString (s : String) : String := String.mk (s.data.map Char.toLower)

/-- The transient-error test of `withRetry`
(src/services/geminiService.ts lines 23-24): lower-case the message and look
for the markers `503`, `unavailable`, `overloaded`. -/
def isRetryable (msg : String) : Bool :=
  let errorMessage := lowerString msg
  strIncludes errorMessage "503" || strIncludes errorMessage "unavailable" ||
    strIncludes errorMessage "overloaded"

/-- The `withRetry` loop (src/services/geminiService.ts lines 10-37),
entered with the given attempt counter, current delay and log of delays
already slept.  `apiCall n` is the outcome of the n-th invocation of the
wrapped call (1-indexed).  The result pairs the final outcome with the list
of delays slept before each retry. -/
def withRetryAux {α : Type} (apiCall : Nat → CallResult α) (maxRetries attempts delay : Nat)
    (waits : List Nat) : CallResult α × List Nat :=
  if h : attempts < maxRetries then
    match apiCall (attempts + 1) with
    | .ok v => (.ok v, waits)
    | .err msg =>
      if isRetryable msg && attempts + 1 < maxRetries then
        withRetryAux apiCall maxRetries (attempts + 1) (delay * 2) (waits ++ [delay])
      else (.err msg, waits)
  else (.err "Exhausted all retries.", waits)
termination_by maxRetries - attempts
decreasing_by omega

/-- `withRetry` proper: the loop starting at zero attempts with the initial
delay and an empty sleep log.  The source defaults are `maxRetries = 3`,
`initialDelay = 2000` milliseconds. -/
def withRetry {α : Type} (apiCall : Nat → CallResult α) (maxRetries initialDelay : Nat) :
    CallResult α × List Nat :=
  withRetryAux apiCall maxRetries 0 initialDelay []

/-- The image-transformation entry point (src/services/geminiService.ts
lines 67-75) issues its `ai.models.generateContent` call wrapped in
`withRetry` at the default parameters. -/
def transformImageCall {α : Type} (apiCall : Nat → CallResult α) : CallResult α × List Nat :=
  withRetry apiCall 3 2000

/-- `generateFlexibleVideo` (src/services/geminiService.ts lines 187-231):
the video job submission issues a single direct `ai.models.generateVideos`
invocation and returns its outcome as-is — there is no `withRetry` wrapper
around it and no delay is slept. -/
def generateFlexibleVideo {α : Type} (sdkCall : Nat → CallResult α) : CallResult α × List Nat :=
  (sdkCall 1, [])

/-- `checkVideoOperationStatus` (src/services/geminiService.ts lines
261-264): the status-check likewise issues a single direct
`ai.operations.getVideosOperation` invocation with no retry wrapper. -/
def checkVideoOperationStatus {α : Type} (sdkCall : Nat → CallResult α) : CallResult α × List Nat :=
  (sdkCall 1, [])

/-- What the browser video element reports for a downloaded artifact:
either its intrinsic resolution once metadata loads, or a load error. -/
inductive VideoMetadata where
  | loaded (videoWidth videoHeight : Nat)
  | loadError
deriving Repr, DecidableEq

/-- `checkVideoResolution` (src/src/FlowstateUnified.tsx lines 560-571):
resolve `true` exactly when `videoWidth >= 1080 || videoHeight >= 1080`;
the `onerror` path resolves `false`. -/
def checkVideoResolution : VideoMetadata → Bool
  | .loaded w h => decide (1080 ≤ w) || decide (1080 ≤ h)
  | .loadError => false

/-- Outcome of one whole generation attempt inside `handleVeoOperation`
(submit, poll to completion, download): either the operation produced no
download link, or an artifact was downloaded with the given metadata. -/
inductive VeoAttempt where
  | noUri : VeoAttempt
  | downloaded (metadata : VideoMetadata) : VeoAttempt
deriving Repr, DecidableEq

/-- The `while(attempts < maxAttempts)` loop of `handleVeoOperation`
(src/src/FlowstateUnified.tsx lines 573-591): on each attempt the whole
generation is re-run (`videoGenerator a` is the outcome of the a-th
attempt, 1-indexed); a downloaded artifact is returned exactly when it
passes `checkVideoResolution`, otherwise the loop re-enters; leaving the
loop raises the terminal error. -/
def handleVeoLoop (videoGenerator : Nat → VeoAttempt) (maxAttempts attempts : Nat) :
    Except String VideoMetadata :=
  if h : attempts < maxAttempts then
    match videoGenerator (attempts + 1) with
    | .downloaded md =>
      if checkVideoResolution md then .ok md
      else handleVeoLoop videoGenerator maxAttempts (attempts + 1)
    | .noUri => handleVeoLoop videoGenerator maxAttempts (attempts + 1)
  else .error "Failed to generate 1080p+ video after retries."
termination_by maxAttempts - attempts
decreasing_by all_goals omega

/-- `handleVeoOperation` proper: the loop entered with `attempts = 0` and
`maxAttempts = 3` (src/src/FlowstateUnified.tsx line 574). -/
def handleVeoOperation (videoGenerator : Nat → VeoAttempt) : Except String VideoMetadata :=
  handleVeoLoop videoGenerator 3 0

/-- An attempt that the orchestrator does not accept: either no download
link was produced, or the downloaded artifact fails the resolution gate. -/
def attemptRejected : VeoAttempt → Bool
  | .noUri => true
  | .downloaded md => !(checkVideoResolution md)

/-- Concrete oracle used in witnesses: the first SDK invocation rejects
with a transient service-unavailable error, every later one resolves. -/
def retryProbe : Nat → CallResult Nat :=
  fun n => if n = 1 then CallResult.err "503 unavailable" else CallResult.ok 42

/-- Concrete attempt oracle used in witnesses: the first generation attempt
produces no download link, every later one a 1080x1920 artifact. -/
def veoProbe : Nat → VeoAttempt :=
  fun a => if a = 1 then VeoAttempt.noUri else VeoAttempt.downloaded (VideoMetadata.loaded 1080 1920)

/-! ## Helper lemmas about the history container -/

/-- A commit whose value serializes equal to the current entry returns the
state object unchanged, whatever the overwrite flag. -/
theorem setState_eq_noop {T : Type} (ser : T → String) (s : HistoryState T) (v : T) (ow : Bool)
    (h : jsonEq ser v s.history[s.index]? = true) : setState ser s v ow = s := by
  simp [setState, h]

/-- A changing commit with the overwrite flag set resets the record to a
single entry with the cursor at zero. -/
theorem setState_eq_overwrite {T : Type} (ser : T → String) (s : HistoryState T) (v : T)
    (h : jsonEq ser v s.history[s.index]? = false) :
    setState ser s v true = ⟨[v], 0⟩ := by
  simp [setState, h]

/-- A changing commit with the overwrite flag clear keeps the prefix up to
the cursor, appends the value, and moves the cursor to the appended entry. -/
theorem setState_eq_branch {T : Type} (ser : T → String) (s : HistoryState T) (v : T)
    (h : jsonEq ser v s.history[s.index]? = false) :
    setState ser s v false =
      ⟨s.history.take (s.index + 1) ++ [v], (s.history.take (s.index + 1)).length⟩ := by
  simp [setState, h]

/-- The last element of the prefix kept by a branch commit is the current
entry. -/
theorem getLast?_take_succ {T : Type} (l : List T) (i : Nat) (h : i < l.length) :
    (l.take (i + 1)).getLast? = l[i]? := by
  rw [List.getLast?_eq_getElem?]
  have hl : (l.take (i + 1)).length = i + 1 := by
    simp [List.length_take]
    omega
  rw [hl]
  simp [List.getElem?_take_of_succ]

/-- Appending a changing commit keeps consecutive entries pairwise
serialization-distinct. -/
theorem chain'_branch {T : Type} (ser : T → String) (s : HistoryState T) (v : T)
    (hidx : s.index < s.history.length)
    (hchain : List.Chain' (fun a b => ser a ≠ ser b) s.history)
    (h : jsonEq ser v s.history[s.index]? = false) :
    List.Chain' (fun a b => ser a ≠ ser b) (s.history.take (s.index + 1) ++ [v]) := by
  apply List.Chain'.append (hchain.take _) (List.chain'_singleton v)
  intro x hx y hy
  simp only [List.head?_cons, Option.mem_def, Option.some.injEq] at hy
  subst hy
  rw [getLast?_take_succ _ _ hidx] at hx
  rw [Option.mem_def] at hx
  rw [hx] at h
  simp only [jsonEq, decide_eq_false_iff_not] at h
  exact fun hxy => h hxy.symm

/-- The invariant holds at construction. -/
theorem invariant_init {T : Type} (ser : T → String) (v0 : T) :
    Invariant ser (HistoryState.init v0) :=
  ⟨by simp [HistoryState.init], by simp [HistoryState.init], by simp [HistoryState.init]⟩

/-- The invariant is preserved by every single operation. -/
theorem invariant_applyOp {T : Type} (ser : T → String) (s : HistoryState T) (op : Op T)
    (h : Invariant ser s) : Invariant ser (applyOp ser s op) := by
  obtain ⟨hn, hidx, hchain⟩ := h
  have hlen : 0 < s.history.length := List.length_pos.mpr hn
  cases op with
  | undo =>
    show Invariant ser (undo s)
    unfold undo
    split
    · refine ⟨hn, ?_, hchain⟩
      show s.index - 1 < s.history.length
      omega
    · exact ⟨hn, hidx, hchain⟩
  | redo =>
    show Invariant ser (redo s)
    unfold redo
    split
    · rename_i hlt
      refine ⟨hn, ?_, hchain⟩
      show s.index + 1 < s.history.length
      omega
    · exact ⟨hn, hidx, hchain⟩
  | commit v ow =>
    show Invariant ser (setState ser s v ow)
    cases hjs : jsonEq ser v s.history[s.index]? with
    | true => rw [setState_eq_noop ser s v ow hjs]; exact ⟨hn, hidx, hchain⟩
    | false =>
      cases ow with
      | true =>
        rw [setState_eq_overwrite ser s v hjs]
        exact ⟨by simp, by simp, by simp⟩
      | false =>
        rw [setState_eq_branch ser s v hjs]
        refine ⟨by simp, by simp, ?_⟩
        exact chain'_branch ser s v hidx hchain hjs

/-- The invariant holds in every reachable state. -/
theorem invariant_run {T : Type} (ser : T → String) (v0 : T) (ops : List (Op T)) :
    Invariant ser (run ser (HistoryState.init v0) ops) := by
  have hgen : ∀ (l : List (Op T)) (s : HistoryState T),
      Invariant ser s → Invariant ser (run ser s l) := by
    intro l
    induction l with
    | nil => intro s hs; exact hs
    | cons op l ih => intro s hs; exact ih _ (invariant_applyOp ser s op hs)
  exact hgen ops _ (invariant_init ser v0)

/-- Non-overwrite operations keep the head of the history. -/
theorem head?_applyOp {T : Type} (ser : T → String) (s : HistoryState T) (op : Op T) (v0 : T)
    (hop : nonOverwrite op = true) (hh : s.history.head? = some v0) :
    (applyOp ser s op).history.head? = some v0 := by
  cases op with
  | undo =>
    show (undo s).history.head? = some v0
    unfold undo
    split <;> exact hh
  | redo =>
    show (redo s).history.head? = some v0
    unfold redo
    split <;> exact hh
  | commit v ow =>
    have how : ow = false := by simpa [nonOverwrite] using hop
    subst how
    show (setState ser s v false).history.head? = some v0
    cases hjs : jsonEq ser v s.history[s.index]? with
    | true => rw [setState_eq_noop ser s v false hjs]; exact hh
    | false =>
      rw [setState_eq_branch ser s v hjs]
      cases hl : s.history with
      | nil => rw [hl] at hh; simp at hh
      | cons a t =>
        rw [hl] at hh
        simp only [List.head?_cons, Option.some.injEq] at hh
        subst hh
        simp [hl, List.take_succ_cons]

/-- The head of the history is the initial value in every state reachable
without overwrite commits. -/
theorem head?_run {T : Type} (ser : T → String) (ops : List (Op T)) :
    ∀ s : HistoryState T, (∀ op ∈ ops, nonOverwrite op = true) → ∀ v0 : T,
      s.history.head? = some v0 → (run ser s ops).history.head? = some v0 := by
  induction ops with
  | nil => intro s _ v0 h; exact h
  | cons op l ih =>
    intro s hall v0 hh
    show (run ser (applyOp ser s op) l).history.head? = some v0
    refine ih _ (fun o ho => hall o (by simp [ho])) v0 ?_
    exact head?_applyOp ser s op v0 (hall op (by simp)) hh

/-! ## Claims about the history container -/

/-- C1, counterexample: from the prior state reached by committing `1` over
initial value `0`, the call `commit(1, overwrite = true)` does not reset the
record to `[1]` with cursor `0` and `canUndo = false` — the
serialization-equality no-op check fires first and leaves the state
`{history := [0, 1], index := 1}` untouched. -/
theorem overwrite_reset_counterexample :
    ¬ ((setState serNat (run serNat (HistoryState.init 0) [Op.commit 1 false]) 1 true).history
          = [1] ∧
        (setState serNat (run serNat (HistoryState.init 0) [Op.commit 1 false]) 1 true).index
          = 0 ∧
        canUndo (setState serNat (run serNat (HistoryState.init 0) [Op.commit 1 false]) 1 true)
          = false) := by
  decide

/-- C1, amended: `commit(v1, overwrite = true)` from any prior state whose
current entry does not serialize equal to `v1` resets `entries` to `[v1]`,
`cursor` to `0`, and `canUndo` to `false`; when `v1` serializes equal to the
current entry the call is instead a no-op. -/
theorem overwrite_resets_history {T : Type} (ser : T → String) (s : HistoryState T) (v1 : T)
    (h : jsonEq ser v1 s.history[s.index]? = false) :
    (setState ser s v1 true).history = [v1] ∧ (setState ser s v1 true).index = 0 ∧
      canUndo (setState ser s v1 true) = false := by
  rw [setState_eq_overwrite ser s v1 h]
  exact ⟨rfl, rfl, rfl⟩

/-- Witness for the amended C1 at a concrete prior state and value. -/
theorem overwrite_resets_history_witness :
    (setState serNat ⟨[5, 7], 1⟩ 9 true).history = [9] ∧
      (setState serNat ⟨[5, 7], 1⟩ 9 true).index = 0 ∧
      canUndo (setState serNat ⟨[5, 7], 1⟩ 9 true) = false :=
  overwrite_resets_history serNat ⟨[5, 7], 1⟩ 9 (by decide)

/-- C2, counterexample: with initial value `0`, the reachable operation
sequence `[commit(1, overwrite = true)]` produces `entries = [1]`, whose
entry 0 is not the initial value `0`: an overwrite commit removes the
initial entry. -/
theorem initial_entry_counterexample :
    ¬ ((run serNat (HistoryState.init 0) [Op.commit 1 true]).history.head? = some 0) := by
  decide

/-- C2, amended: in every state reachable from construction with initial
value `v0` by commits with the overwrite flag clear, undos, and redos,
entry 0 of the history is still `v0`. -/
theorem initial_entry_preserved {T : Type} (ser : T → String) (v0 : T) (ops : List (Op T))
    (hops : ∀ op ∈ ops, nonOverwrite op = true) :
    (run ser (HistoryState.init v0) ops).history.head? = some v0 :=
  head?_run ser ops (HistoryState.init v0) hops v0 rfl

/-- Witness for the amended C2 on a concrete operation sequence. -/
theorem initial_entry_preserved_witness :
    (run serNat (HistoryState.init 0) [Op.commit 1 false, Op.undo, Op.commit 2 false,
        Op.redo]).history.head? = some 0 :=
  initial_entry_preserved serNat 0 [Op.commit 1 false, Op.undo, Op.commit 2 false, Op.redo]
    (by decide)

/-- C5: committing a value whose serialization equals that of the current
entry is a no-op for either value of the overwrite flag: the whole record —
entries and cursor — is returned unchanged, and no error is raised. -/
theorem commit_equal_is_noop {T : Type} (ser : T → String) (s : HistoryState T) (v c : T)
    (ow : Bool) (hc : current s = some c) (hser : ser v = ser c) :
    setState ser s v ow = s := by
  apply setState_eq_noop
  have hcur : s.history[s.index]? = some c := hc
  rw [hcur]
  simp [jsonEq, hser]

/-- Witness for C5 at a concrete state and value. -/
theorem commit_equal_is_noop_witness :
    setState serNat ⟨[3, 4], 1⟩ 4 false = ⟨[3, 4], 1⟩ :=
  commit_equal_is_noop serNat ⟨[3, 4], 1⟩ 4 4 false (by decide) (by decide)

/-- C10: when the committed value serializes equal to the current entry,
`commit(v, overwrite = true)` leaves the entire record unchanged: the no-op
equality check takes precedence over the overwrite history reset. -/
theorem commit_equal_overwrite_noop {T : Type} (ser : T → String) (s : HistoryState T) (v c : T)
    (hc : current s = some c) (hser : ser v = ser c) :
    setState ser s v true = s := by
  apply setState_eq_noop
  have hcur : s.history[s.index]? = some c := hc
  rw [hcur]
  simp [jsonEq, hser]

/-- Witness for C10 at a concrete state and value: overwrite is requested
but the record keeps its two entries and its cursor. -/
theorem commit_equal_overwrite_noop_witness :
    setState serNat ⟨[3, 4], 1⟩ 4 true = ⟨[3, 4], 1⟩ :=
  commit_equal_overwrite_noop serNat ⟨[3, 4], 1⟩ 4 4 (by decide) (by decide)

/-- C7: `undo` and `redo` never change the entries; `undo` decrements the
cursor exactly when it is positive and is otherwise the identity on the
state; `redo` increments the cursor exactly when it is strictly below the
last position and is otherwise the identity on the state; no error is
raised in either case. -/
theorem undo_redo_frame {T : Type} (s : HistoryState T) :
    (undo s).history = s.history ∧ (redo s).history = s.history ∧
      (0 < s.index → (undo s).index = s.index - 1) ∧
      (s.index = 0 → undo s = s) ∧
      (s.index < s.history.length - 1 → (redo s).index = s.index + 1) ∧
      (¬ s.index < s.history.length - 1 → redo s = s) := by
  refine ⟨?_, ?_, ?_, ?_, ?_, ?_⟩
  · unfold undo; split <;> rfl
  · unfold redo; split <;> rfl
  · intro h; unfold undo; rw [if_pos h]
  · intro h; unfold undo; rw [if_neg]; omega
  · intro h; unfold redo; rw [if_pos h]
  · intro h; unfold redo; rw [if_neg h]

/-- Witness for C7 at concrete states on both sides of each boundary. -/
theorem undo_redo_frame_witness :
    (undo (⟨[0, 1, 2], 1⟩ : HistoryState Nat)).index = 0 ∧
      undo (⟨[0, 1, 2], 0⟩ : HistoryState Nat) = ⟨[0, 1, 2], 0⟩ ∧
      (redo (⟨[0, 1, 2], 1⟩ : HistoryState Nat)).index = 2 ∧
      redo (⟨[0, 1, 2], 2⟩ : HistoryState Nat) = ⟨[0, 1, 2], 2⟩ := by
  refine ⟨?_, ?_, ?_, ?_⟩
  · exact (undo_redo_frame (⟨[0, 1, 2], 1⟩ : HistoryState Nat)).2.2.1 (by decide)
  · exact (undo_redo_frame (⟨[0, 1, 2], 0⟩ : HistoryState Nat)).2.2.2.1 (by decide)
  · exact (undo_redo_frame (⟨[0, 1, 2], 1⟩ : HistoryState Nat)).2.2.2.2.1 (by decide)
  · exact (undo_redo_frame (⟨[0, 1, 2], 2⟩ : HistoryState Nat)).2.2.2.2.2 (by decide)

/-- C3: the conjoined state invariant — non-empty entries, cursor pointing
at an existing entry, no two consecutive entries serialization equal —
holds after construction and is preserved by every commit (with either
overwrite flag value), undo, and redo. -/
theorem invariant_established_and_preserved {T : Type} (ser : T → String) (v0 : T) :
    Invariant ser (HistoryState.init v0) ∧
      ∀ (s : HistoryState T) (op : Op T), Invariant ser s → Invariant ser (applyOp ser s op) :=
  ⟨invariant_init ser v0, fun s op hs => invariant_applyOp ser s op hs⟩

/-- Witness for C3: the invariant concretely holds at construction and
after one step from it. -/
theorem invariant_established_and_preserved_witness :
    Invariant serNat (HistoryState.init 0) ∧
      Invariant serNat (applyOp serNat (HistoryState.init 0) (Op.commit 1 false)) := by
  have h := invariant_established_and_preserved serNat 0
  exact ⟨h.1, h.2 (HistoryState.init 0) (Op.commit 1 false) h.1⟩

/-- C4: from initial value `v0`, with `v0, v1, v2, v3` pairwise distinct
under serialization, the sequence `commit(v1)`, `commit(v2)`, `undo()`,
`commit(v3)` (all non-overwrite) yields `entries = [v0, v1, v3]` — `v2` is
discarded — and `canRedo = false`. -/
theorem branch_truncation {T : Type} (ser : T → String) (v0 v1 v2 v3 : T)
    (h10 : ser v1 ≠ ser v0) (h20 : ser v2 ≠ ser v0) (h21 : ser v2 ≠ ser v1)
    (h30 : ser v3 ≠ ser v0) (h31 : ser v3 ≠ ser v1) (h32 : ser v3 ≠ ser v2) :
    (run ser (HistoryState.init v0)
        [Op.commit v1 false, Op.commit v2 false, Op.undo, Op.commit v3 false]).history
        = [v0, v1, v3] ∧
      canRedo (run ser (HistoryState.init v0)
        [Op.commit v1 false, Op.commit v2 false, Op.undo, Op.commit v3 false]) = false := by
  have e1 : setState ser (HistoryState.init v0) v1 false = ⟨[v0, v1], 1⟩ := by
    have hj : jsonEq ser v1 (HistoryState.init v0).history[(HistoryState.init v0).index]?
        = false := by
      simp [HistoryState.init, jsonEq, h10]
    rw [setState_eq_branch ser _ v1 hj]
    simp [HistoryState.init]
  have e2 : setState ser ⟨[v0, v1], 1⟩ v2 false = ⟨[v0, v1, v2], 2⟩ := by
    have hj : jsonEq ser v2 (⟨[v0, v1], 1⟩ : HistoryState T).history[(⟨[v0, v1], 1⟩ :
        HistoryState T).index]? = false := by
      simp [jsonEq, h21]
    rw [setState_eq_branch ser _ v2 hj]
    simp
  have e3 : undo (⟨[v0, v1, v2], 2⟩ : HistoryState T) = ⟨[v0, v1, v2], 1⟩ := by
    unfold undo
    simp
  have e4 : setState ser ⟨[v0, v1, v2], 1⟩ v3 false = ⟨[v0, v1, v3], 2⟩ := by
    have hj : jsonEq ser v3 (⟨[v0, v1, v2], 1⟩ : HistoryState T).history[(⟨[v0, v1, v2], 1⟩ :
        HistoryState T).index]? = false := by
      simp [jsonEq, h31]
    rw [setState_eq_branch ser _ v3 hj]
    simp
  have hrun : run ser (HistoryState.init v0)
      [Op.commit v1 false, Op.commit v2 false, Op.undo, Op.commit v3 false]
      = ⟨[v0, v1, v3], 2⟩ := by
    simp only [run, applyOp]
    rw [e1, e2, e3, e4]
  rw [hrun]
  exact ⟨rfl, rfl⟩

/-- Witness for C4 at concrete pairwise-distinct values. -/
theorem branch_truncation_witness :
    (run serNat (HistoryState.init 0)
        [Op.commit 1 false, Op.commit 2 false, Op.undo, Op.commit 3 false]).history
        = [0, 1, 3] ∧
      canRedo (run serNat (HistoryState.init 0)
        [Op.commit 1 false, Op.commit 2 false, Op.undo, Op.commit 3 false]) = false :=
  branch_truncation serNat 0 1 2 3 (by decide) (by decide) (by decide) (by decide) (by decide)
    (by decide)

/-- Applying k undos to a state whose cursor is at least k moves the cursor
down by k and keeps the entries. -/
theorem undo_iterate {T : Type} :
    ∀ (k : Nat) (s : HistoryState T), k ≤ s.index → undo^[k] s = ⟨s.history, s.index - k⟩ := by
  intro k
  induction k with
  | zero => intro s _; rfl
  | succ k ih =>
    intro s hk
    rw [Function.iterate_succ_apply]
    have h0 : 0 < s.index := by omega
    have hu : undo s = ⟨s.history, s.index - 1⟩ := by unfold undo; rw [if_pos h0]
    rw [hu, ih ⟨s.history, s.index - 1⟩ (by show k ≤ s.index - 1; omega)]
    show (⟨s.history, s.index - 1 - k⟩ : HistoryState T) = ⟨s.history, s.index - (k + 1)⟩
    have harith : s.index - 1 - k = s.index - (k + 1) := by omega
    rw [harith]

/-- Applying k redos to a state with at least k entries beyond the cursor
moves the cursor up by k and keeps the entries. -/
theorem redo_iterate {T : Type} :
    ∀ (k : Nat) (s : HistoryState T), s.index + k < s.history.length →
      redo^[k] s = ⟨s.history, s.index + k⟩ := by
  intro k
  induction k with
  | zero => intro s _; rfl
  | succ k ih =>
    intro s hk
    rw [Function.iterate_succ_apply]
    have h0 : s.index < s.history.length - 1 := by omega
    have hr : redo s = ⟨s.history, s.index + 1⟩ := by unfold redo; rw [if_pos h0]
    rw [hr, ih ⟨s.history, s.index + 1⟩ (by show s.index + 1 + k < s.history.length; omega)]
    show (⟨s.history, s.index + 1 + k⟩ : HistoryState T) = ⟨s.history, s.index + (k + 1)⟩
    have harith : s.index + 1 + k = s.index + (k + 1) := by omega
    rw [harith]

/-- In any state whose cursor is in range, k undos followed by k redos
(k at most the cursor) restore the whole record. -/
theorem undo_redo_roundtrip_state {T : Type} (s : HistoryState T) (k : Nat) (hk : k ≤ s.index)
    (hidx : s.index < s.history.length) : redo^[k] (undo^[k] s) = s := by
  rw [undo_iterate k s hk]
  rw [redo_iterate k ⟨s.history, s.index - k⟩
    (by show s.index - k + k < s.history.length; omega)]
  show (⟨s.history, s.index - k + k⟩ : HistoryState T) = s
  have harith : s.index - k + k = s.index := by omega
  rw [harith]

/-- C6: for every sequence of commits from construction and every k not
exceeding the resulting cursor position (the number of undo steps
available), performing k undos and then k redos returns `current` to the
value it held immediately before the undos — indeed it restores the whole
record. -/
theorem undo_redo_roundtrip {T : Type} (ser : T → String) (v0 : T) (ops : List (Op T))
    (hops : ∀ op ∈ ops, isCommit op = true) (k : Nat)
    (hk : k ≤ (run ser (HistoryState.init v0) ops).index) :
    current (redo^[k] (undo^[k] (run ser (HistoryState.init v0) ops)))
        = current (run ser (HistoryState.init v0) ops) ∧
      redo^[k] (undo^[k] (run ser (HistoryState.init v0) ops))
        = run ser (HistoryState.init v0) ops := by
  have hinv := invariant_run ser v0 ops
  have h := undo_redo_roundtrip_state (run ser (HistoryState.init v0) ops) k hk hinv.2.1
  exact ⟨by rw [h], h⟩

/-- Witness for C6: two commits, two undos, two redos on concrete values. -/
theorem undo_redo_roundtrip_witness :
    current (redo^[2] (undo^[2] (run serNat (HistoryState.init 0)
          [Op.commit 1 false, Op.commit 2 false])))
        = current (run serNat (HistoryState.init 0) [Op.commit 1 false, Op.commit 2 false]) ∧
      redo^[2] (undo^[2] (run serNat (HistoryState.init 0)
          [Op.commit 1 false, Op.commit 2 false]))
        = run serNat (HistoryState.init 0) [Op.commit 1 false, Op.commit 2 false] :=
  undo_redo_roundtrip serNat 0 [Op.commit 1 false, Op.commit 2 false] (by decide) 2 (by decide)

/-! ## Helper lemmas about the retry policy and the video orchestrator -/

/-- One unfolding of the retry loop while attempts remain. -/
theorem withRetryAux_step {α : Type} (apiCall : Nat → CallResult α)
    (maxRetries attempts delay : Nat) (waits : List Nat) (h : attempts < maxRetries) :
    withRetryAux apiCall maxRetries attempts delay waits =
      match apiCall (attempts + 1) with
      | .ok v => (.ok v, waits)
      | .err msg =>
        if isRetryable msg && attempts + 1 < maxRetries then
          withRetryAux apiCall maxRetries (attempts + 1) (delay * 2) (waits ++ [delay])
        else (.err msg, waits) := by
  rw [withRetryAux]
  simp [h]

/-- Complete case analysis of `withRetry` at the source defaults
(3 attempts, initial delay 2000 ms): first-attempt success returns at once
with no sleeping; a non-transient error propagates at once; a transient
error sleeps the current delay and retries with the delay doubled; a third
attempt propagates its error whether transient or not. -/
theorem withRetry_cases {α : Type} (o : Nat → CallResult α) :
    (∀ v, o 1 = CallResult.ok v → withRetry o 3 2000 = (CallResult.ok v, [])) ∧
    (∀ m, o 1 = CallResult.err m → isRetryable m = false →
      withRetry o 3 2000 = (CallResult.err m, [])) ∧
    (∀ m v, o 1 = CallResult.err m → isRetryable m = true → o 2 = CallResult.ok v →
      withRetry o 3 2000 = (CallResult.ok v, [2000])) ∧
    (∀ m m2, o 1 = CallResult.err m → isRetryable m = true → o 2 = CallResult.err m2 →
      isRetryable m2 = false → withRetry o 3 2000 = (CallResult.err m2, [2000])) ∧
    (∀ m m2 v, o 1 = CallResult.err m → isRetryable m = true → o 2 = CallResult.err m2 →
      isRetryable m2 = true → o 3 = CallResult.ok v →
      withRetry o 3 2000 = (CallResult.ok v, [2000, 4000])) ∧
    (∀ m m2 m3, o 1 = CallResult.err m → isRetryable m = true → o 2 = CallResult.err m2 →
      isRetryable m2 = true → o 3 = CallResult.err m3 →
      withRetry o 3 2000 = (CallResult.err m3, [2000, 4000])) := by
  refine ⟨?_, ?_, ?_, ?_, ?_, ?_⟩
  · intro v h1
    show withRetryAux o 3 0 2000 [] = (CallResult.ok v, [])
    rw [withRetryAux_step o 3 0 2000 [] (by omega)]
    simp [h1]
  · intro m h1 hr
    show withRetryAux o 3 0 2000 [] = (CallResult.err m, [])
    rw [withRetryAux_step o 3 0 2000 [] (by omega)]
    simp [h1, hr]
  · intro m v h1 hr h2
    show withRetryAux o 3 0 2000 [] = (CallResult.ok v, [2000])
    rw [withRetryAux_step o 3 0 2000 [] (by omega)]
    simp only [h1, hr]
    norm_num
    rw [withRetryAux_step o 3 1 4000 [2000] (by omega)]
    simp [h2]
  · intro m m2 h1 hr h2 hr2
    show withRetryAux o 3 0 2000 [] = (CallResult.err m2, [2000])
    rw [withRetryAux_step o 3 0 2000 [] (by omega)]
    simp only [h1, hr]
    norm_num
    rw [withRetryAux_step o 3 1 4000 [2000] (by omega)]
    simp [h2, hr2]
  · intro m m2 v h1 hr h2 hr2 h3
    show withRetryAux o 3 0 2000 [] = (CallResult.ok v, [2000, 4000])
    rw [withRetryAux_step o 3 0 2000 [] (by omega)]
    simp only [h1, hr]
    norm_num
    rw [withRetryAux_step o 3 1 4000 [2000] (by omega)]
    simp only [h2, hr2]
    norm_num
    rw [withRetryAux_step o 3 2 8000 [2000, 4000] (by omega)]
    simp [h3]
  · intro m m2 m3 h1 hr h2 hr2 h3
    show withRetryAux o 3 0 2000 [] = (CallResult.err m3, [2000, 4000])
    rw [withRetryAux_step o 3 0 2000 [] (by omega)]
    simp only [h1, hr]
    norm_num
    rw [withRetryAux_step o 3 1 4000 [2000] (by omega)]
    simp only [h2, hr2]
    norm_num
    rw [withRetryAux_step o 3 2 8000 [2000, 4000] (by omega)]
    simp [h3]

/-- One unfolding of the video attempt loop while attempts remain. -/
theorem handleVeoLoop_step (g : Nat → VeoAttempt) (maxA att : Nat) (h : att < maxA) :
    handleVeoLoop g maxA att =
      match g (att + 1) with
      | .downloaded md =>
        if checkVideoResolution md then .ok md else handleVeoLoop g maxA (att + 1)
      | .noUri => handleVeoLoop g maxA (att + 1) := by
  rw [handleVeoLoop]
  simp [h]

/-- Leaving the video attempt loop raises the terminal error. -/
theorem handleVeoLoop_stop (g : Nat → VeoAttempt) (maxA att : Nat) (h : ¬ att < maxA) :
    handleVeoLoop g maxA att = .error "Failed to generate 1080p+ video after retries." := by
  rw [handleVeoLoop]
  simp [h]

/-- Soundness of acceptance: whatever the loop returns successfully was the
artifact of one of the attempts within the bound, and it passed the
resolution gate. -/
theorem handleVeoLoop_ok (g : Nat → VeoAttempt) (maxA : Nat) :
    ∀ (n att : Nat) (md : VideoMetadata), maxA - att ≤ n →
      handleVeoLoop g maxA att = Except.ok md →
      checkVideoResolution md = true ∧
        ∃ a, att < a ∧ a ≤ maxA ∧ g a = VeoAttempt.downloaded md := by
  intro n
  induction n with
  | zero =>
    intro att md hle hrun
    rw [handleVeoLoop_stop g maxA att (by omega)] at hrun
    simp at hrun
  | succ n ih =>
    intro att md hle hrun
    by_cases hatt : att < maxA
    · rw [handleVeoLoop_step g maxA att hatt] at hrun
      cases hg : g (att + 1) with
      | noUri =>
        simp only [hg] at hrun
        obtain ⟨hcv, a, ha1, ha2, ha3⟩ := ih (att + 1) md (by omega) hrun
        exact ⟨hcv, a, by omega, ha2, ha3⟩
      | downloaded md2 =>
        simp only [hg] at hrun
        by_cases hcv : checkVideoResolution md2 = true
        · rw [if_pos hcv] at hrun
          injection hrun with hmd
          subst hmd
          exact ⟨hcv, att + 1, by omega, by omega, hg⟩
        · rw [if_neg hcv] at hrun
          obtain ⟨hcv2, a, ha1, ha2, ha3⟩ := ih (att + 1) md (by omega) hrun
          exact ⟨hcv2, a, by omega, ha2, ha3⟩
    · rw [handleVeoLoop_stop g maxA att hatt] at hrun
      simp at hrun

/-- If every attempt within the bound is rejected (no link or sub-threshold
artifact), the loop raises the terminal error. -/
theorem handleVeoLoop_error (g : Nat → VeoAttempt) (maxA : Nat) :
    ∀ (n att : Nat), maxA - att ≤ n →
      (∀ a, att < a → a ≤ maxA → attemptRejected (g a) = true) →
      handleVeoLoop g maxA att
        = Except.error "Failed to generate 1080p+ video after retries." := by
  intro n
  induction n with
  | zero =>
    intro att hle _
    exact handleVeoLoop_stop g maxA att (by omega)
  | succ n ih =>
    intro att hle hrej
    by_cases hatt : att < maxA
    · rw [handleVeoLoop_step g maxA att hatt]
      have hr := hrej (att + 1) (by omega) (by omega)
      cases hg : g (att + 1) with
      | noUri =>
        simp only [hg]
        exact ih (att + 1) (by omega) (fun a h1 h2 => hrej a (by omega) h2)
      | downloaded md =>
        simp only [hg]
        have hcv : checkVideoResolution md = false := by
          rw [hg] at hr
          simpa [attemptRejected] using hr
        rw [if_neg (by simp [hcv])]
        exact ih (att + 1) (by omega) (fun a h1 h2 => hrej a (by omega) h2)
    · exact handleVeoLoop_stop g maxA att hatt

/-! ## Claims about the generation service and the video orchestrator -/

/-- C8, counterexample: on an oracle whose first SDK invocation fails with
the transient error `503 unavailable` and whose second invocation succeeds,
the retry policy recovers after sleeping 2000 ms, but the video job
submission and the status-check call propagate the transient error
immediately with no sleep: they are not wrapped in the retry policy. -/
theorem video_calls_not_retried_counterexample :
    generateFlexibleVideo retryProbe = (CallResult.err "503 unavailable", ([] : List Nat)) ∧
      checkVideoOperationStatus retryProbe
        = (CallResult.err "503 unavailable", ([] : List Nat)) ∧
      withRetry retryProbe 3 2000 = (CallResult.ok 42, [2000]) ∧
      generateFlexibleVideo retryProbe ≠ withRetry retryProbe 3 2000 := by
  have hw : withRetry retryProbe 3 2000 = (CallResult.ok 42, [2000]) :=
    (withRetry_cases retryProbe).2.2.1 "503 unavailable" 42 rfl (by decide) rfl
  refine ⟨rfl, rfl, hw, ?_⟩
  rw [hw]
  decide

/-- C8, amended: the image-transformation SDK call is wrapped in the retry
policy — success returns at once; a non-transient error propagates at once;
a transient error (message containing 503 / unavailable / overloaded) with
attempts remaining sleeps the exponentially doubling delays 2000 ms then
4000 ms before re-invoking; a transient error on the final of the 3
attempts propagates — while the video job submission and the status-check
call are not wrapped: each issues exactly one SDK invocation and propagates
its outcome unchanged with no retry and no sleep. -/
theorem generation_retry_policy {α : Type} (o : Nat → CallResult α) :
    (∀ v, o 1 = CallResult.ok v → transformImageCall o = (CallResult.ok v, [])) ∧
    (∀ m, o 1 = CallResult.err m → isRetryable m = false →
      transformImageCall o = (CallResult.err m, [])) ∧
    (∀ m v, o 1 = CallResult.err m → isRetryable m = true → o 2 = CallResult.ok v →
      transformImageCall o = (CallResult.ok v, [2000])) ∧
    (∀ m m2, o 1 = CallResult.err m → isRetryable m = true → o 2 = CallResult.err m2 →
      isRetryable m2 = false → transformImageCall o = (CallResult.err m2, [2000])) ∧
    (∀ m m2 v, o 1 = CallResult.err m → isRetryable m = true → o 2 = CallResult.err m2 →
      isRetryable m2 = true → o 3 = CallResult.ok v →
      transformImageCall o = (CallResult.ok v, [2000, 4000])) ∧
    (∀ m m2 m3, o 1 = CallResult.err m → isRetryable m = true → o 2 = CallResult.err m2 →
      isRetryable m2 = true → o 3 = CallResult.err m3 →
      transformImageCall o = (CallResult.err m3, [2000, 4000])) ∧
    generateFlexibleVideo o = (o 1, []) ∧
    checkVideoOperationStatus o = (o 1, []) := by
  obtain ⟨c1, c2, c3, c4, c5, c6⟩ := withRetry_cases o
  exact ⟨c1, c2, c3, c4, c5, c6, rfl, rfl⟩

/-- Witness for the amended C8 on the concrete probe oracle. -/
theorem generation_retry_policy_witness :
    transformImageCall retryProbe = (CallResult.ok 42, [2000]) ∧
      generateFlexibleVideo retryProbe = (retryProbe 1, []) :=
  ⟨(generation_retry_policy retryProbe).2.2.1 "503 unavailable" 42 rfl (by decide) rfl,
    (generation_retry_policy retryProbe).2.2.2.2.2.2.1⟩

/-- C9: the video orchestrator accepts an artifact only when it passed the
resolution gate (width or height at least 1080) on one of at most 3
attempts; a rejected attempt (no download link, or sub-threshold artifact)
is followed by a full resubmission; when all 3 attempts are rejected it
raises the terminal error instead of returning a degraded artifact. -/
theorem veo_quality_gate (g : Nat → VeoAttempt) :
    (∀ md, handleVeoOperation g = Except.ok md →
      checkVideoResolution md = true ∧
        ∃ a, 1 ≤ a ∧ a ≤ 3 ∧ g a = VeoAttempt.downloaded md) ∧
    (∀ w h, handleVeoOperation g = Except.ok (VideoMetadata.loaded w h) →
      1080 ≤ w ∨ 1080 ≤ h) ∧
    ((∀ a, 1 ≤ a → a ≤ 3 → attemptRejected (g a) = true) →
      handleVeoOperation g = Except.error "Failed to generate 1080p+ video after retries.") ∧
    (∀ md, attemptRejected (g 1) = true → g 2 = VeoAttempt.downloaded md →
      checkVideoResolution md = true → handleVeoOperation g = Except.ok md) := by
  refine ⟨?_, ?_, ?_, ?_⟩
  · intro md h
    obtain ⟨hcv, a, ha1, ha2, ha3⟩ := handleVeoLoop_ok g 3 3 0 md (by omega) h
    exact ⟨hcv, a, by omega, ha2, ha3⟩
  · intro w h hrun
    obtain ⟨hcv, _⟩ := handleVeoLoop_ok g 3 3 0 _ (by omega) hrun
    simpa [checkVideoResolution] using hcv
  · intro hrej
    exact handleVeoLoop_error g 3 3 0 (by omega) (fun a h1 h2 => hrej a (by omega) h2)
  · intro md h1 h2 hcv
    show handleVeoLoop g 3 0 = Except.ok md
    rw [handleVeoLoop_step g 3 0 (by omega)]
    cases hg1 : g 1 with
    | noUri =>
      show handleVeoLoop g 3 1 = Except.ok md
      rw [handleVeoLoop_step g 3 1 (by omega)]
      simp only [h2]
      rw [if_pos hcv]
    | downloaded md1 =>
      have hcv1 : checkVideoResolution md1 = false := by
        rw [hg1] at h1
        simpa [attemptRejected] using h1
      show (if checkVideoResolution md1 = true then Except.ok md1 else handleVeoLoop g 3 1)
          = Except.ok md
      rw [if_neg (by simp [hcv1])]
      rw [handleVeoLoop_step g 3 1 (by omega)]
      simp only [h2]
      rw [if_pos hcv]

/-- Witness for C9: a first attempt with no download link followed by an
accepted 1080x1920 artifact on the resubmission. -/
theorem veo_quality_gate_witness :
    handleVeoOperation veoProbe = Except.ok (VideoMetadata.loaded 1080 1920) :=
  (veo_quality_gate veoProbe).2.2.2 (VideoMetadata.loaded 1080 1920) (by decide) (by decide)
    (by decide)

end Flowstate
